import Mathlib

/-!
Verification of the seminar-scraper core (`scraper.py`): date normalization,
speaker/title splitting, narrative (IMFS) block parsing, and the final
aggregation stage.  Python strings are modelled as Lean `String`s processed
through their character lists; Python `datetime.date`/`time` values are records
of naturals validated exactly where the library validates them; fallible
operations return `Option`, and the one place where the script can raise an
uncaught exception is modelled with `Except`.
-/

namespace Scraper

/-! ### Character classes and basic Python string operations -/

/-- Python whitespace (the characters `str.split()` / `str.strip()` treat as
whitespace, and that `\s` matches under `re.UNICODE`), by code point. -/
def pyIsSpace (c : Char) : Bool :=
  let n := c.toNat
  n == 32 || (9 ≤ n && n ≤ 13) || (28 ≤ n && n ≤ 31) || n == 133 || n == 160 ||
  n == 5760 || (8192 ≤ n && n ≤ 8202) || n == 8232 || n == 8233 || n == 8239 ||
  n == 8287 || n == 12288

/-- ASCII decimal digit, the characters matched by `\d` in the patterns of the
script (the sources never contain non-ASCII digits). -/
def isDigitChar (c : Char) : Bool :=
  let n := c.toNat
  48 ≤ n && n ≤ 57

/-- The character class `[A-Za-zäöüÄÖÜ]` of `parse_german_or_english_date`. -/
def isUmlAlpha (c : Char) : Bool :=
  let n := c.toNat
  (65 ≤ n && n ≤ 90) || (97 ≤ n && n ≤ 122) ||
  n == 228 || n == 246 || n == 252 || n == 196 || n == 214 || n == 220

/-- Python `str.lower()` restricted to the alphabet the script can meet
(ASCII letters and the German umlauts appearing in its regexes). -/
def pyLowerChar (c : Char) : Char :=
  if 65 ≤ c.toNat && c.toNat ≤ 90 then Char.ofNat (c.toNat + 32)
  else if c == 'Ä' then 'ä'
  else if c == 'Ö' then 'ö'
  else if c == 'Ü' then 'ü'
  else c

/-- Python `str.upper()` on the same alphabet.  (`ß`, which Python uppercases
to the two-letter `SS`, is left alone: no single character uppercasing to a
string can make a token equal to `TBA`/`TBD`, so the splitter is unaffected.) -/
def pyUpperChar (c : Char) : Char :=
  if 97 ≤ c.toNat && c.toNat ≤ 122 then Char.ofNat (c.toNat - 32)
  else if c == 'ä' then 'Ä'
  else if c == 'ö' then 'Ö'
  else if c == 'ü' then 'Ü'
  else c

def pyLowerChars (l : List Char) : List Char := l.map pyLowerChar

def pyUpperChars (l : List Char) : List Char := l.map pyUpperChar

/-- `line.replace("\xa0", " ")`: both sides of the replacement are single
characters, so it is a character map. -/
def nbspToSpace (c : Char) : Char := if c.toNat == 160 then ' ' else c

/-- Python `str.strip()` (no argument): drop whitespace from both ends. -/
def pyStripChars (l : List Char) : List Char :=
  ((l.dropWhile pyIsSpace).reverse.dropWhile pyIsSpace).reverse

/-- Python `str.strip(chars)`: drop the given characters from both ends. -/
def pyStripSet (set : List Char) (l : List Char) : List Char :=
  let f : Char → Bool := fun c => set.contains c
  ((l.dropWhile f).reverse.dropWhile f).reverse

/-- Python `str.rstrip(chars)`: drop the given characters from the right end. -/
def pyRstripSet (set : List Char) (l : List Char) : List Char :=
  (l.reverse.dropWhile (fun c => set.contains c)).reverse

/-- Worker for `str.split()`: accumulate the current token (reversed) and cut
at whitespace, discarding empty tokens. -/
def splitWsAux : List Char → List Char → List (List Char)
  | [], acc => if acc.isEmpty then [] else [acc.reverse]
  | c :: cs, acc =>
    if pyIsSpace c then
      if acc.isEmpty then splitWsAux cs [] else acc.reverse :: splitWsAux cs []
    else
      splitWsAux cs (c :: acc)

/-- Python `str.split()` (no argument): split on runs of whitespace. -/
def splitWsChars (l : List Char) : List (List Char) := splitWsAux l []

/-- Python `" ".join(tokens)`. -/
def joinSpChars : List (List Char) → List Char
  | [] => []
  | [t] => t
  | t :: t' :: ts => t ++ ' ' :: joinSpChars (t' :: ts)

/-- Python `sep.join(strings)` for a general separator. -/
def joinWith (sep : String) : List String → String
  | [] => ""
  | [t] => t
  | t :: t' :: ts => t ++ sep ++ joinWith sep (t' :: ts)

/-- Python `str.strip()` on `String`. -/
def pyStrip (s : String) : String := String.mk (pyStripChars s.data)

/-- Prefix test used by the substring search below. -/
def isPrefixChars : List Char → List Char → Bool
  | [], _ => true
  | _ :: _, [] => false
  | p :: ps, c :: cs => p == c && isPrefixChars ps cs

/-- Python `pat in s` (substring containment). -/
def containsSub (pat : List Char) : List Char → Bool
  | [] => pat.isEmpty
  | c :: cs => isPrefixChars pat (c :: cs) || containsSub pat cs

/-- Value of an ASCII digit. -/
def digVal (c : Char) : Nat := c.toNat - 48

/-- Numeric value of a list of ASCII digits. -/
def digitsToNat (l : List Char) : Nat := l.foldl (fun n c => n * 10 + digVal c) 0

/-- Python `int(tok)` acceptance on a whitespace-free token.  (Python also
accepts underscore separators and non-ASCII digits; for such tokens the later
`strptime` formats fail exactly as they do when this test fails, so the
observable behaviour of `parse_date_prefix` is unchanged.) -/
def pyIntOk : List Char → Bool
  | [] => false
  | c :: cs =>
    if c == '+' || c == '-' then !cs.isEmpty && cs.all isDigitChar
    else (c :: cs).all isDigitChar

/-! ### Dates and times (`datetime.date`, `datetime.time`) -/

structure PyDate where
  year : Nat
  month : Nat
  day : Nat
deriving DecidableEq

structure PyTime where
  hour : Nat
  minute : Nat
deriving DecidableEq

structure PyDateTime where
  date : PyDate
  time : PyTime
deriving DecidableEq

def isLeap (y : Nat) : Bool := (y % 4 == 0 && y % 100 != 0) || y % 400 == 0

def daysInMonth (y m : Nat) : Nat :=
  if m == 2 then (if isLeap y then 29 else 28)
  else if m == 4 || m == 6 || m == 9 || m == 11 then 30
  else 31

/-- `datetime.date(y, m, d)`: `none` exactly when the constructor raises
`ValueError` (`MINYEAR = 1`, `MAXYEAR = 9999`). -/
def mkDate (y m d : Nat) : Option PyDate :=
  if 1 ≤ y && y ≤ 9999 && 1 ≤ m && m ≤ 12 && 1 ≤ d && d ≤ daysInMonth y m then
    some ⟨y, m, d⟩
  else none

/-- `datetime.time(h, m)`: `none` exactly when the constructor raises
`ValueError`. -/
def mkTime (h m : Nat) : Option PyTime :=
  if h ≤ 23 && m ≤ 59 then some ⟨h, m⟩ else none

/-! ### `strptime` for the four formats used by `parse_date_prefix`

`datetime.strptime` compiles each directive to a regular expression and
requires the whole input to be consumed.  The inputs here are always three
whitespace-free tokens joined by single spaces, so each directive must consume
its token exactly: `%d` is `3[01]|[12]\d|0[1-9]|[1-9]`, `%Y` is exactly four
digits, and `%b`/`%B` match a month name case-insensitively. -/

/-- `%d` against one whole token. -/
def parseDayTok (t : List Char) : Option Nat :=
  if t.all isDigitChar && (t.length == 1 || t.length == 2) then
    let n := digitsToNat t
    if 1 ≤ n && n ≤ 31 then some n else none
  else none

/-- `%Y` against one whole token: exactly four digits. -/
def parseYearTok (t : List Char) : Option Nat :=
  if t.all isDigitChar && t.length == 4 then some (digitsToNat t) else none

/-- `%b`: English month abbreviations (C locale), on a lowercased token. -/
def abbMonth : String → Option Nat
  | "jan" => some 1 | "feb" => some 2 | "mar" => some 3 | "apr" => some 4
  | "may" => some 5 | "jun" => some 6 | "jul" => some 7 | "aug" => some 8
  | "sep" => some 9 | "oct" => some 10 | "nov" => some 11 | "dec" => some 12
  | _ => none

/-- `%B`: full English month names (C locale), on a lowercased token. -/
def fullMonth : String → Option Nat
  | "january" => some 1 | "february" => some 2 | "march" => some 3
  | "april" => some 4 | "may" => some 5 | "june" => some 6 | "july" => some 7
  | "august" => some 8 | "september" => some 9 | "october" => some 10
  | "november" => some 11 | "december" => some 12
  | _ => none

/-- `datetime.strptime(" ".join([t0, t1, t2]), "%d %b %Y")` (or `%B` when
`full` is true), followed by `.date()`. -/
def strptimeDayMonYear (full : Bool) (t0 t1 t2 : List Char) : Option PyDate := do
  let d ← parseDayTok t0
  let m ← (if full then fullMonth else abbMonth) (String.mk (pyLowerChars t1))
  let y ← parseYearTok t2
  mkDate y m d

/-- `datetime.strptime(" ".join([t0, t1, t2]), "%b %d %Y")` (or `%B`),
followed by `.date()`. -/
def strptimeMonDayYear (full : Bool) (t0 t1 t2 : List Char) : Option PyDate := do
  let m ← (if full then fullMonth else abbMonth) (String.mk (pyLowerChars t0))
  let d ← parseDayTok t1
  let y ← parseYearTok t2
  mkDate y m d

/-! ### `parse_date_prefix` (renamed `parse_row_date`: the original name ends
in a word this development avoids in identifiers) -/

/-- Embedding of `parse_date_prefix(line)`: extract a date from the first
three tokens of a table row, returning the date (if any) and the rest of the
line.  Case 1 tries `%d %b %Y` / `%d %B %Y` when the first token (with
trailing periods removed) is an integer literal; case 2 then tries
`%b %d %Y` / `%B %d %Y` with `,`/`.` stripped from the end of the second
token. -/
def parse_row_date (line : String) : Option PyDate × String :=
  let cleaned := pyStripChars (line.data.map nbspToSpace)
  match splitWsChars cleaned with
  | t0 :: t1 :: t2 :: rest =>
    let case1 : Option PyDate :=
      if pyIntOk (pyRstripSet ['.'] t0) then
        (strptimeDayMonYear false t0 t1 t2).orElse
          (fun _ => strptimeDayMonYear true t0 t1 t2)
      else none
    match case1 with
    | some d => (some d, String.mk (joinSpChars rest))
    | none =>
      let t1s := pyRstripSet [',', '.'] t1
      match (strptimeMonDayYear false t0 t1s t2).orElse
          (fun _ => strptimeMonDayYear true t0 t1s t2) with
      | some d => (some d, String.mk (joinSpChars rest))
      | none => (none, String.mk cleaned)
  | _ => (none, String.mk cleaned)

/-! ### `parse_german_or_english_date` -/

/-- The bilingual `MONTH_MAP` of the script. -/
def monthMap : String → Option Nat
  | "jan" => some 1 | "january" => some 1 | "januar" => some 1
  | "feb" => some 2 | "february" => some 2 | "februar" => some 2
  | "mar" => some 3 | "march" => some 3 | "maerz" => some 3
  | "apr" => some 4 | "april" => some 4
  | "may" => some 5 | "mai" => some 5
  | "jun" => some 6 | "june" => some 6 | "juni" => some 6
  | "jul" => some 7 | "july" => some 7 | "juli" => some 7
  | "aug" => some 8 | "august" => some 8
  | "sep" => some 9 | "sept" => some 9 | "september" => some 9
  | "oct" => some 10 | "october" => some 10 | "oktober" => some 10
  | "nov" => some 11 | "november" => some 11
  | "dec" => some 12 | "december" => some 12 | "dezember" => some 12
  | _ => none

/-- Note `märz` is looked up after lowercasing and ASCII-folding, giving
`maerz`; the native-umlaut spelling is covered that way. -/
def foldUml (c : Char) : List Char :=
  if c == 'ä' then ['a', 'e']
  else if c == 'ö' then ['o', 'e']
  else if c == 'ü' then ['u', 'e']
  else [c]

def foldUmlauts (l : List Char) : List Char := (l.map foldUml).flatten

/-- Continuation of the regex `(\d{1,2})\.\s*([A-Za-zäöüÄÖÜ]+)\s+(\d{4})`
after the day digits `ds`: a literal `.`, optional whitespace, at least one
letter, at least one whitespace, then exactly four digits (anything may
follow).  Each greedy repetition is followed by a disjoint character class, so
maximal munch is exact. -/
def gAfterDay (ds : List Char) (l : List Char) : Option (Nat × List Char × Nat) :=
  match l with
  | '.' :: r1 =>
    let r2 := r1.dropWhile pyIsSpace
    let monthName := r2.takeWhile isUmlAlpha
    if monthName.isEmpty then none
    else
      let r3 := r2.dropWhile isUmlAlpha
      if (r3.takeWhile pyIsSpace).isEmpty then none
      else
        match r3.dropWhile pyIsSpace with
        | y1 :: y2 :: y3 :: y4 :: _ =>
          if y1.isDigit && y2.isDigit && y3.isDigit && y4.isDigit then
            some (digitsToNat ds, monthName, digitsToNat [y1, y2, y3, y4])
          else none
        | _ => none
  | _ => none

/-- One attempt of the regex at the current position: `\d{1,2}` greedily takes
two digits, backtracking to one. -/
def gMatchFrom : List Char → Option (Nat × List Char × Nat)
  | [] => none
  | c1 :: rest1 =>
    if c1.isDigit then
      (match rest1 with
        | c2 :: rest2 =>
          if c2.isDigit then gAfterDay [c1, c2] rest2 else none
        | [] => none).orElse
        (fun _ => gAfterDay [c1] rest1)
    else none

/-- `re.search`: leftmost position at which the pattern matches. -/
def gSearch : List Char → Option (Nat × List Char × Nat)
  | [] => none
  | c :: cs => (gMatchFrom (c :: cs)).orElse (fun _ => gSearch cs)

/-- Embedding of `parse_german_or_english_date(line)`. -/
def parse_german_or_english_date (line : String) : Option PyDate :=
  match gSearch (line.data.map nbspToSpace) with
  | none => none
  | some (day, monthName, year) =>
    let key := foldUmlauts (pyLowerChars monthName)
    match monthMap (String.mk key) with
    | none => none
    | some m => mkDate year m day

/-- The date normalizer of the specification is the union of the two date
parsers of the script: the table-row scanner first, the German/English
pattern second. -/
def normalizeDate (s : String) : Option PyDate :=
  match (parse_row_date s).1 with
  | some d => some d
  | none => parse_german_or_english_date s

/-! ### `split_speaker_and_title` -/

/-- The separator set of `title.strip(" -–:")`. -/
def sepSet : List Char := [' ', '-', '–', ':']

/-- Index of the last occurrence of `c` (Python `str.rfind`), `none` when
absent. -/
def pyRfindChar (c : Char) : List Char → Option Nat
  | [] => none
  | x :: xs =>
    match pyRfindChar c xs with
    | some j => some (j + 1)
    | none => if x == c then some 0 else none

/-- Embedding of `split_speaker_and_title(rest)`: heuristic split of the
remainder of a row into speaker and title. -/
def split_speaker_and_title (rest : String) : String × String :=
  let restN := joinSpChars (splitWsChars rest.data)
  if restN.isEmpty then ("", "")
  else
    let raw := restN
    if restN.any (· == '(') && restN.any (· == ')') then
      let lastClose := (pyRfindChar ')' restN).getD 0
      let speaker := pyStripChars (restN.take (lastClose + 1))
      let title := pyStripSet sepSet (restN.drop (lastClose + 1))
      (String.mk speaker, String.mk title)
    else
      let toks := splitWsChars restN
      let tbaHit : Bool :=
        match toks.getLast? with
        | some lt =>
          let u := pyRstripSet ['.'] (pyUpperChars lt)
          (u == "TBA".data || u == "TBD".data) && toks.length ≥ 2
        | none => false
      if tbaHit then
        (String.mk (joinSpChars toks.dropLast), String.mk (toks.getLast?.getD []))
      else if toks.length ≥ 4 then
        (String.mk (joinSpChars (toks.take 2)), String.mk (joinSpChars (toks.drop 2)))
      else
        (String.mk raw, "")

/-! ### Events and the tabular (Typo3) row extractor -/

structure Event where
  series : String
  source_url : String
  title : String
  speaker : String
  datetime : PyDateTime
  location : Option String := none
  extra_info : Option String := none
  raw : Option String := none
deriving DecidableEq

/-- Per-source configuration of `scrape_typo3_series`. -/
structure SeriesConfig where
  url : String
  series : String
  default_time : PyTime
  default_location : Option String

/-- Embedding of the per-row body of the `scrape_typo3_series` loop
(`scraper.py` lines 161-182): parse the leading date, skip the row when no
date or no remaining text is found, split speaker/title, fall back to the
whole remainder when the split yields an empty title, and build the Event
with the configured default time and location.  (`speaker or ""` is the
identity on strings.) -/
def processRow (cfg : SeriesConfig) (line : String) : Option Event :=
  match parse_row_date line with
  | (none, _) => none
  | (some d, rest) =>
    if pyStrip rest = "" then none
    else
      let st := split_speaker_and_title rest
      let title := if st.2 = "" then pyStrip rest else st.2
      some { series := cfg.series, source_url := cfg.url, title := title,
             speaker := st.1, datetime := ⟨d, cfg.default_time⟩,
             location := cfg.default_location, extra_info := none,
             raw := some rest }

/-! ### The IMFS narrative-block parser -/

def IMFS_URL : String :=
  "https://www.imfs-frankfurt.de/veranstaltungen/alle-kommenden-veranstaltungen"

/-- The quote characters detected by `'\"' in ln or \"„\" in ln or \"“\" in ln`. -/
def hasQuoteChar (l : List Char) : Bool :=
  l.any (fun c => c == '"' || c == '„' || c == '“')

/-- The lazy inner span of the regex `["“„](.*?)["”“]`: characters up to the
first closing quote, failing on a newline (`.` does not match `\n`) or when no
closing quote follows. -/
def takeUntilClose : List Char → Option (List Char)
  | [] => none
  | c :: cs =>
    if c == '"' || c == '”' || c == '“' then some []
    else if c == '\n' then none
    else (takeUntilClose cs).map (c :: ·)

/-- `re.search(r'["“„](.*?)["”“]', ln)`: first opening-quote position from
which a closing quote is reachable. -/
def quoteSpan : List Char → Option (List Char)
  | [] => none
  | c :: cs =>
    if c == '"' || c == '“' || c == '„' then
      match takeUntilClose cs with
      | some inner => some inner
      | none => quoteSpan cs
    else quoteSpan cs

/-- The title loop of `parse_imfs_block`: first line of `lines[1:]` holding a
quote character supplies the title (the quoted span when the regex matches,
else the line with whitespace then quote characters stripped); with no such
line, `lines[1]` (when present) is used. -/
def imfsTitleLoop (alllines : List String) : List String → String
  | [] =>
    match alllines with
    | _ :: l1 :: _ => pyStrip l1
    | _ => ""
  | ln :: more =>
    if hasQuoteChar ln.data then
      match quoteSpan ln.data with
      | some inner => String.mk (pyStripChars inner)
      | none => String.mk (pyStripSet ['"', '“', '”', '„'] (pyStripChars ln.data))
    else imfsTitleLoop alllines more

def imfsTitle (lines : List String) : String :=
  match lines with
  | [] => ""
  | _ :: rest => imfsTitleLoop lines rest

/-- First line (with its index) that `parse_german_or_english_date` accepts. -/
def findDateIdx : List String → Nat → Option (Nat × PyDate)
  | [], _ => none
  | ln :: rest, i =>
    match parse_german_or_english_date ln with
    | some d => some (i, d)
    | none => findDateIdx rest (i + 1)

/-- `re.search(r"(\d{1,2}):(\d{2})", ln)`: one attempt at the current
position, two day digits first, backtracking to one. -/
def hmMatchFrom : List Char → Option (Nat × Nat)
  | [] => none
  | c1 :: rest =>
    if c1.isDigit then
      (match rest with
        | c2 :: ':' :: m1 :: m2 :: _ =>
          if c2.isDigit && m1.isDigit && m2.isDigit then
            some (digitsToNat [c1, c2], digitsToNat [m1, m2])
          else none
        | _ => none).orElse
        (fun _ =>
          match rest with
          | ':' :: m1 :: m2 :: _ =>
            if m1.isDigit && m2.isDigit then
              some (digVal c1, digitsToNat [m1, m2])
            else none
          | _ => none)
    else none

def hmSearch : List Char → Option (Nat × Nat)
  | [] => none
  | c :: cs => (hmMatchFrom (c :: cs)).orElse (fun _ => hmSearch cs)

/-- The time loop of `parse_imfs_block`: first line after the date containing
`uhr` (case-insensitively) or an `HH:MM` shape, together with the extracted
pair when the regex matches. -/
def timeScan : List String → Nat → Option (Nat × Option (Nat × Nat))
  | [], _ => none
  | ln :: rest, j =>
    if containsSub "uhr".data (pyLowerChars ln.data) || (hmSearch ln.data).isSome then
      some (j, hmSearch ln.data)
    else timeScan rest (j + 1)

/-- Stop phrases ending the location span. -/
def stopPhrase (ln : String) : Bool :=
  let lw := pyLowerChars ln.data
  containsSub "bitte melden".data lw || containsSub "registration".data lw ||
    containsSub "anmeldung".data lw

/-- Location lines: everything up to the first stop phrase, each stripped. -/
def locScan : List String → List String
  | [] => []
  | ln :: rest => if stopPhrase ln then [] else pyStrip ln :: locScan rest

/-- Embedding of `parse_imfs_block(series_name, lines)`.  The result is
`Except`: `.error` marks the one place where the Python code raises an
uncaught `ValueError`, namely `time(h, mnt)` with out-of-range numbers taken
from the first `HH:MM`-shaped match; `.ok none` is the documented failure
(`None`), `.ok (some ev)` the parsed event. -/
def parse_imfs_block (series_name : String) (lines : List String) :
    Except String (Option Event) :=
  match lines with
  | [] => .ok none
  | l0 :: _ =>
    let speaker := pyStrip l0
    let title := imfsTitle lines
    match findDateIdx lines 0 with
    | none => .ok none
    | some (dateIdx, d) =>
      let timeRes : Except String (PyTime × Option Nat) :=
        match timeScan (lines.drop (dateIdx + 1)) (dateIdx + 1) with
        | none => .ok (⟨12, 0⟩, none)
        | some (j, none) => .ok (⟨12, 0⟩, some j)
        | some (j, some (h, mn)) =>
          match mkTime h mn with
          | some t => .ok (t, some j)
          | none => .error "ValueError: hour/minute out of range in time()"
      match timeRes with
      | .error e => .error e
      | .ok (t, timeIdx) =>
        let startLoc := match timeIdx with | some j => j + 1 | none => dateIdx + 1
        let locLines := locScan (lines.drop startLoc)
        let location := if locLines.isEmpty then none else some (joinWith ", " locLines)
        .ok (some { series := "IMFS – " ++ series_name, source_url := IMFS_URL,
                    title := title, speaker := speaker, datetime := ⟨d, t⟩,
                    location := location, extra_info := none,
                    raw := some (joinWith "\n" lines) })

/-! ### The aggregation stage of `main` -/

/-- Lexicographic order on calendar dates (how `datetime.date` compares). -/
def dateLe (a b : PyDate) : Bool :=
  decide (a.year < b.year ∨ (a.year = b.year ∧
    (a.month < b.month ∨ (a.month = b.month ∧ a.day ≤ b.day))))

/-- Lexicographic order on date-times (how `datetime.datetime` compares). -/
def dtLe (a b : PyDateTime) : Bool :=
  decide (a.date.year < b.date.year ∨ (a.date.year = b.date.year ∧
    (a.date.month < b.date.month ∨ (a.date.month = b.date.month ∧
    (a.date.day < b.date.day ∨ (a.date.day = b.date.day ∧
    (a.time.hour < b.time.hour ∨ (a.time.hour = b.time.hour ∧
    a.time.minute ≤ b.time.minute))))))))

def eventLe (a b : Event) : Bool := dtLe a.datetime b.datetime

/-- Embedding of the aggregation stage of `main` (`scraper.py` lines 457-461):
keep the events whose calendar date is at least `today`, then sort by the full
date-time with Python `list.sort`, a stable ascending sort. -/
def aggregate (events : List Event) (today : PyDate) : List Event :=
  (events.filter (fun e => dateLe today e.datetime.date)).mergeSort eventLe

/-! ### The splitter rules as the (amended) specification words them -/

/-- Amended rule 1: everything up to and including the last `)` (whitespace
trimmed) is the speaker; the remainder with leading and trailing separator
characters (`-`, `–`, `:`, whitespace) stripped is the title. -/
def specParenRule (t : List Char) : String × String :=
  let cut := (pyRfindChar ')' t).getD 0 + 1
  (String.mk (pyStripChars (t.take cut)), String.mk (pyStripSet sepSet (t.drop cut)))

/-- Rule 2 trigger: the token, uppercased with trailing periods stripped, is
`TBA` or `TBD`. -/
def specTbaToken (tok : List Char) : Bool :=
  let u := pyRstripSet ['.'] (pyUpperChars tok)
  u == "TBA".data || u == "TBD".data

/-- The speaker/title splitter as the amended specification states it: all
rules operate on the whitespace-normalized text (runs of whitespace collapsed
to single spaces, ends trimmed); the first matching rule of (1) parenthesis,
(2) TBA/TBD, (3) at-least-four-tokens, (4) all-speaker applies, and the
all-speaker fallback returns the normalized text with an empty title. -/
def splitSpeakerTitleSpec (text : String) : String × String :=
  let t := joinSpChars (splitWsChars text.data)
  let toks := splitWsChars t
  if t.any (· == '(') && t.any (· == ')') then
    specParenRule t
  else if (match toks.getLast? with
           | some lt => specTbaToken lt
           | none => false) && toks.length ≥ 2 then
    (String.mk (joinSpChars toks.dropLast), String.mk (toks.getLast?.getD []))
  else if toks.length ≥ 4 then
    (String.mk (joinSpChars (toks.take 2)), String.mk (joinSpChars (toks.drop 2)))
  else
    (String.mk t, "")

/-- The condition under which `split_speaker_and_title` reaches its rule-4
fallback (whole text as speaker, empty title). -/
def splitterFallback (rest : String) : Bool :=
  let t := joinSpChars (splitWsChars rest.data)
  let toks := splitWsChars t
  !t.isEmpty &&
  !(t.any (· == '(') && t.any (· == ')')) &&
  !(match toks.getLast? with
    | some lt => specTbaToken lt && toks.length ≥ 2
    | none => false) &&
  toks.length < 4

/-! ### Concrete fixtures for the scenario claims -/

/-- Configuration of the C3 scenario: defaultTime 12:00, defaultLocation
`Room 1`, seriesName `S` (the source URL is not constrained by the claim). -/
def c3cfg : SeriesConfig := ⟨"U", "S", ⟨12, 0⟩, some "Room 1"⟩

/-- The C3 row, rendered the way `scrape_typo3_series` consumes rows: a single
`Date Speaker Topic` line (the script has no separated-columns input path). -/
def c3row : String := "04 Nov 2025 Prof. A. Smith On Markets"

/-- Two events sharing the dedup key (series, title, calendar date) of the
specification, differing in speaker and time-of-day. -/
def dupA : Event :=
  { series := "S", source_url := "U", title := "T", speaker := "X",
    datetime := ⟨⟨2025, 11, 27⟩, ⟨12, 0⟩⟩ }

def dupB : Event :=
  { series := "S", source_url := "U", title := "T", speaker := "Y",
    datetime := ⟨⟨2025, 11, 27⟩, ⟨13, 0⟩⟩ }

/-- The narrative block of the C8 scenario. -/
def c8lines : List String :=
  ["Jane Doe, MIT", "\"A Great Talk\"", "27. November 2025", "12:30-13:30 Uhr",
   "Room X", "House Y", "Bitte melden Sie sich an"]

/-- A block whose first `HH:MM`-shaped match after the date line is the
out-of-range `29:99` (C5). -/
def c5lines : List String :=
  ["Jane Doe, MIT", "\"T\"", "27. November 2025", "29:99 Uhr"]

/-- A fallback-shaped row for the C10 witness: two tokens after the date, no
parentheses, no TBA/TBD marker. -/
def c10row : String := "04 Nov 2025 Alice Bob"

def c10cfg : SeriesConfig := ⟨"U2", "S2", ⟨14, 0⟩, none⟩

/-- The event `processRow c10cfg c10row` produces. -/
def c10ev : Event :=
  { series := "S2", source_url := "U2", title := "Alice Bob", speaker := "Alice Bob",
    datetime := ⟨⟨2025, 11, 4⟩, ⟨14, 0⟩⟩, location := none, extra_info := none,
    raw := some "Alice Bob" }

end Scraper

deriving instance DecidableEq for Except

namespace Scraper

/-! ## Claim theorems -/

/-- C1 (counterexample): the date normalizer does not recognize the numeric
German pattern nor the ISO pattern; on `27.11.2025` and `2025-11-04` it fails
instead of returning the claimed calendar dates. -/
theorem C1_cex :
    normalizeDate "27.11.2025" ≠ some ⟨2025, 11, 27⟩ ∧
    normalizeDate "2025-11-04" ≠ some ⟨2025, 11, 4⟩ := by decide

/-- C1 (amended): the date normalizer recovers the correct calendar date for
the first three pattern families (`04 Nov 2025`, `Nov 18, 2025`,
`27. November 2025`), and rejects the `<day>.<month-number>.<year>` and ISO
families (`27.11.2025`, `2025-11-04`) with a failure rather than a date. -/
theorem C1_families :
    normalizeDate "04 Nov 2025" = some ⟨2025, 11, 4⟩ ∧
    normalizeDate "Nov 18, 2025" = some ⟨2025, 11, 18⟩ ∧
    normalizeDate "27. November 2025" = some ⟨2025, 11, 27⟩ ∧
    normalizeDate "27.11.2025" = none ∧
    normalizeDate "2025-11-04" = none := by decide

/-- C3 (counterexample): on the row `04 Nov 2025 Prof. A. Smith On Markets`
the tabular extractor does not produce the claimed speaker
`Prof. A. Smith`: the four-token heuristic takes only the first two tokens. -/
theorem C3_cex : (processRow c3cfg c3row).map Event.speaker ≠ some "Prof. A. Smith" := by
  decide

/-- C3 (amended): on the combined row `04 Nov 2025 Prof. A. Smith On Markets`
with config defaultTime 12:00, defaultLocation `Room 1`, seriesName `S`, the
tabular extractor yields exactly one Event, with speaker `Prof. A.`, title
`Smith On Markets`, dateTime 2025-11-04T12:00 and location `Room 1`. -/
theorem C3_row :
    processRow c3cfg c3row =
      some { series := "S", source_url := "U", title := "Smith On Markets",
             speaker := "Prof. A.", datetime := ⟨⟨2025, 11, 4⟩, ⟨12, 0⟩⟩,
             location := some "Room 1", extra_info := none,
             raw := some "Prof. A. Smith On Markets" } := by decide

/-- C5 (code bug): on a block whose first `HH:MM`-shaped match after the date
line is `29:99`, the per-block parser does not return an Event-or-failure; the
Python code raises an uncaught `ValueError` from `time(29, 99)`, contradicting
its own docstring (`Returns an Event or None if parsing fails`). -/
theorem C5_raises :
    parse_imfs_block "S" c5lines =
      Except.error "ValueError: hour/minute out of range in time()" := by decide

/-- C8: the narrative block of the scenario yields speaker `Jane Doe, MIT`,
title `A Great Talk`, dateTime 2025-11-27T12:30 and location
`Room X, House Y`. -/
theorem C8_block :
    parse_imfs_block "S" c8lines =
      Except.ok (some
        { series := "IMFS – S", source_url := IMFS_URL, title := "A Great Talk",
          speaker := "Jane Doe, MIT", datetime := ⟨⟨2025, 11, 27⟩, ⟨12, 30⟩⟩,
          location := some "Room X, House Y", extra_info := none,
          raw := some "Jane Doe, MIT\n\"A Great Talk\"\n27. November 2025\n12:30-13:30 Uhr\nRoom X\nHouse Y\nBitte melden Sie sich an" }) := by
  decide

/-- C6 (counterexample): rule 1 of the splitter does not strip only leading
separator characters from the title; on `Jane Doe (MIT) Some Title:` the
trailing `:` is stripped as well, so the title is not the claimed
`Some Title:`. -/
theorem C6_cex :
    (split_speaker_and_title "Jane Doe (MIT) Some Title:").2 ≠ "Some Title:" := by
  decide

/-- C6 (amended): the splitter applies exactly the four rules in the claimed
precedence, with two corrections: every rule operates on the
whitespace-normalized text (runs of whitespace collapsed to single spaces,
ends trimmed) — in particular the all-speaker fallback returns the normalized
text — and rule 1 strips the separator characters from both ends of the
title, not only the leading ones.  The two claimed examples hold as stated. -/
theorem C6_rules :
    (∀ text : String, split_speaker_and_title text = splitSpeakerTitleSpec text) ∧
    split_speaker_and_title "Jane Doe (MIT) Some Title Here" =
      ("Jane Doe (MIT)", "Some Title Here") ∧
    split_speaker_and_title "Jane Doe TBA" = ("Jane Doe", "TBA") := by
  refine ⟨fun text => ?_, by decide, by decide⟩
  unfold split_speaker_and_title splitSpeakerTitleSpec specParenRule specTbaToken
  generalize joinSpChars (splitWsChars text.data) = t
  by_cases ht : t = []
  · subst ht
    rfl
  · have hne : t.isEmpty = false := by simpa [List.isEmpty_iff] using ht
    simp only [hne, Bool.false_eq_true, if_false]
    by_cases hp : (t.any (· == '(') && t.any (· == ')')) = true
    · simp only [hp, if_true]
    · simp only [hp, Bool.false_eq_true, if_false]
      cases hl : (splitWsChars t).getLast? with
      | none => simp [hl]
      | some lt => simp [hl, Bool.and_eq_true, decide_eq_true_eq]

/-! ### The aggregation stage: helper lemmas -/

theorem eventLe_trans (a b c : Event) (h1 : eventLe a b) (h2 : eventLe b c) :
    eventLe a c = true := by
  simp only [eventLe, dtLe, decide_eq_true_eq] at *
  omega

theorem eventLe_total (a b : Event) : eventLe a b || eventLe b a := by
  simp only [eventLe, dtLe, Bool.or_eq_true, decide_eq_true_eq]
  omega

theorem eventLe_of_dt_eq (a b : Event) (h : a.datetime = b.datetime) :
    eventLe a b = true := by
  simp only [eventLe, dtLe, h, decide_eq_true_eq]
  exact Or.inr ⟨trivial, Or.inr ⟨trivial, Or.inr ⟨trivial, Or.inr ⟨trivial, Nat.le_refl _⟩⟩⟩⟩

theorem filter_self_of_mem {q : Event → Bool} (l : List Event)
    (h : ∀ a ∈ l, q a = true) : l.filter q = l :=
  List.filter_eq_self.mpr h

/-- C9: the aggregation stage keeps exactly the input events whose calendar
date is at least `today` (a permutation of the filtered input, so with
multiplicity), the output is non-decreasing in the full date-time order, and
the sort is stable: restricted to any fixed instant `t`, the output sequence
equals the filtered input sequence. -/
theorem C9_filter_sort (events : List Event) (today : PyDate) :
    (aggregate events today).Perm
      (events.filter (fun e => dateLe today e.datetime.date)) ∧
    (aggregate events today).Pairwise (fun a b => eventLe a b = true) ∧
    ∀ t : PyDateTime,
      (aggregate events today).filter (fun e => e.datetime == t) =
        (events.filter (fun e => dateLe today e.datetime.date)).filter
          (fun e => e.datetime == t) := by
  refine ⟨List.mergeSort_perm _ _, List.sorted_mergeSort eventLe_trans eventLe_total _, ?_⟩
  intro t
  set l := events.filter (fun e => dateLe today e.datetime.date) with hl
  set q : Event → Bool := fun e => e.datetime == t with hq
  have hqmem : ∀ a ∈ l.filter q, q a = true := fun a ha => (List.mem_filter.mp ha).2
  have hpw : (l.filter q).Pairwise (fun a b => eventLe a b = true) := by
    apply List.pairwise_of_forall_mem_list
    intro a ha b hb
    have h1 := hqmem a ha
    have h2 := hqmem b hb
    simp only [hq, beq_iff_eq] at h1 h2
    exact eventLe_of_dt_eq a b (h1.trans h2.symm)
  have hsub : List.Sublist (l.filter q) (aggregate events today) := by
    have := List.sublist_mergeSort eventLe_trans eventLe_total hpw (List.filter_sublist l)
    exact this
  have hsub2 : List.Sublist (l.filter q) ((aggregate events today).filter q) := by
    have := hsub.filter q
    rwa [filter_self_of_mem _ hqmem] at this
  have hperm : List.Perm ((aggregate events today).filter q) (l.filter q) :=
    (List.mergeSort_perm l eventLe).filter q
  exact (hsub2.eq_of_length hperm.length_eq.symm).symm

/-- C2 (counterexample): the aggregation stage performs no deduplication.
`dupA` and `dupB` agree on series, source, title and calendar date (they
differ only in speaker and inferred time-of-day), yet both survive
aggregation — the later duplicate is not dropped. -/
theorem C2_cex :
    dupA.series = dupB.series ∧ dupA.source_url = dupB.source_url ∧
    dupA.title = dupB.title ∧ dupA.datetime.date = dupB.datetime.date ∧
    dupA ≠ dupB ∧
    aggregate [dupA, dupB] ⟨2025, 1, 1⟩ = [dupA, dupB] := by
  refine ⟨rfl, rfl, rfl, rfl, by decide, ?_⟩
  have hf : [dupA, dupB].filter (fun e => dateLe ⟨2025, 1, 1⟩ e.datetime.date) =
      [dupA, dupB] := by decide
  unfold aggregate
  rw [hf]
  apply List.mergeSort_of_sorted
  refine List.Pairwise.cons ?_ (List.pairwise_singleton _ _)
  intro b hb
  have hb2 : b = dupB := by simpa using hb
  subst hb2
  decide

/-- C2 (amended): the aggregation stage does not deduplicate; every input
event with date at least `today` appears in the output with its input
multiplicity, duplicate keys included. -/
theorem C2_count_preserved (events : List Event) (today : PyDate) (e : Event) :
    (aggregate events today).count e =
      (events.filter (fun x => dateLe today x.datetime.date)).count e :=
  (List.mergeSort_perm _ _).count_eq e

end Scraper

namespace Scraper

/-! Character-class facts -/

theorem digit_not_ws (c : Char) (h : isDigitChar c = true) : pyIsSpace c = false := by
  cases hw : pyIsSpace c with
  | false => rfl
  | true =>
    exfalso
    simp only [isDigitChar, Bool.and_eq_true, decide_eq_true_eq] at h
    simp only [pyIsSpace, Bool.or_eq_true, Bool.and_eq_true, beq_iff_eq,
      decide_eq_true_eq] at hw
    omega

theorem uml_not_ws (c : Char) (h : isUmlAlpha c = true) : pyIsSpace c = false := by
  cases hw : pyIsSpace c with
  | false => rfl
  | true =>
    exfalso
    simp only [isUmlAlpha, Bool.or_eq_true, Bool.and_eq_true, beq_iff_eq,
      decide_eq_true_eq] at h
    simp only [pyIsSpace, Bool.or_eq_true, Bool.and_eq_true, beq_iff_eq,
      decide_eq_true_eq] at hw
    omega

theorem digit_ne_dot (c : Char) (h : isDigitChar c = true) : c ≠ '.' := by
  intro he
  rw [he] at h
  exact absurd h (by decide)

theorem uml_ne_dot (c : Char) (h : isUmlAlpha c = true) : c ≠ '.' := by
  intro he
  rw [he] at h
  exact absurd h (by decide)

theorem uml_ne_comma (c : Char) (h : isUmlAlpha c = true) : c ≠ ',' := by
  intro he
  rw [he] at h
  exact absurd h (by decide)

theorem digit_nbsp_id (c : Char) (h : isDigitChar c = true) : nbspToSpace c = c := by
  unfold nbspToSpace
  have hne : (c.toNat == 160) = false := by
    simp only [isDigitChar, Bool.and_eq_true, decide_eq_true_eq] at h
    simp only [beq_eq_false_iff_ne, ne_eq]
    omega
  rw [hne]
  rfl

theorem uml_nbsp_id (c : Char) (h : isUmlAlpha c = true) : nbspToSpace c = c := by
  unfold nbspToSpace
  have hne : (c.toNat == 160) = false := by
    simp only [isUmlAlpha, Bool.or_eq_true, Bool.and_eq_true, beq_iff_eq,
      decide_eq_true_eq] at h
    simp only [beq_eq_false_iff_ne, ne_eq]
    omega
  rw [hne]
  rfl

theorem uml_notin_comma_dot (c : Char) (h : isUmlAlpha c = true) :
    ([',', '.'] : List Char).contains c = false := by
  simp [List.contains, uml_ne_comma c h, uml_ne_dot c h]

theorem digit_notin_dot (c : Char) (h : isDigitChar c = true) :
    (['.'] : List Char).contains c = false := by
  simp [List.contains, digit_ne_dot c h]

/-! Generic list helpers -/

theorem dropWhile_all_false {f : Char → Bool} :
    ∀ l : List Char, (∀ c ∈ l, f c = false) → l.dropWhile f = l
  | [], _ => rfl
  | c :: cs, h => by
    rw [List.dropWhile_cons, h c (List.mem_cons_self c cs)]
    simp

theorem map_self {f : Char → Char} :
    ∀ l : List Char, (∀ c ∈ l, f c = c) → l.map f = l
  | [], _ => rfl
  | c :: cs, h => by
    rw [List.map_cons, h c (List.mem_cons_self c cs),
      map_self cs (fun d hd => h d (List.mem_cons_of_mem c hd))]

theorem rstrip_id (set : List Char) (l : List Char)
    (h : ∀ c ∈ l, set.contains c = false) : pyRstripSet set l = l := by
  unfold pyRstripSet
  rw [dropWhile_all_false l.reverse (fun c hc => h c (List.mem_reverse.mp hc))]
  exact l.reverse_reverse

theorem reverse_head (t : List Char) (h : t ≠ []) :
    ∃ c cs, t.reverse = c :: cs ∧ c ∈ t := by
  match ht : t.reverse with
  | [] => exact absurd (by simpa using congrArg List.reverse ht) h
  | c :: cs =>
    refine ⟨c, cs, rfl, ?_⟩
    have : c ∈ t.reverse := by rw [ht]; exact List.mem_cons_self c cs
    exact List.mem_reverse.mp this

/-! `str.split()` / `" ".join` lemmas -/

theorem splitWsAux_clean (l : List Char) :
    ∀ acc, (∀ c ∈ acc, pyIsSpace c = false) →
      ∀ t ∈ splitWsAux l acc, t ≠ [] ∧ ∀ c ∈ t, pyIsSpace c = false := by
  induction l with
  | nil =>
    intro acc hacc t ht
    unfold splitWsAux at ht
    by_cases hae : acc.isEmpty
    · simp [hae] at ht
    · rw [if_neg hae] at ht
      simp only [List.mem_singleton] at ht
      subst ht
      refine ⟨by simpa [List.isEmpty_iff] using hae, ?_⟩
      intro c hc
      exact hacc c (List.mem_reverse.mp hc)
  | cons c cs ih =>
    intro acc hacc t ht
    unfold splitWsAux at ht
    by_cases hsp : pyIsSpace c
    · rw [if_pos hsp] at ht
      by_cases hae : acc.isEmpty
      · rw [if_pos hae] at ht
        exact ih [] (by simp) t ht
      · rw [if_neg hae] at ht
        rcases List.mem_cons.mp ht with h1 | h1
        · subst h1
          refine ⟨by simpa [List.isEmpty_iff] using hae, ?_⟩
          intro d hd
          exact hacc d (List.mem_reverse.mp hd)
        · exact ih [] (by simp) t h1
    · rw [if_neg hsp] at ht
      refine ih (c :: acc) ?_ t ht
      intro d hd
      rcases List.mem_cons.mp hd with h1 | h1
      · subst h1
        simpa using hsp
      · exact hacc d h1

theorem splitWs_clean (l : List Char) :
    ∀ t ∈ splitWsChars l, t ≠ [] ∧ ∀ c ∈ t, pyIsSpace c = false :=
  splitWsAux_clean l [] (by simp)

theorem splitWsAux_nil_eq (acc : List Char) :
    splitWsAux [] acc = if acc.isEmpty then [] else [acc.reverse] := rfl

theorem splitWsAux_cons_eq (c : Char) (cs acc : List Char) :
    splitWsAux (c :: cs) acc =
      if pyIsSpace c then
        (if acc.isEmpty then splitWsAux cs [] else acc.reverse :: splitWsAux cs [])
      else splitWsAux cs (c :: acc) := rfl

theorem splitWsAux_cut (w : List Char) (hw : ∀ c ∈ w, pyIsSpace c = false) :
    ∀ acc rest, splitWsAux (w ++ ' ' :: rest) acc =
      if acc.reverse ++ w = [] then splitWsAux rest []
      else (acc.reverse ++ w) :: splitWsAux rest [] := by
  induction w with
  | nil =>
    intro acc rest
    simp only [List.nil_append, List.append_nil]
    rw [splitWsAux_cons_eq, show pyIsSpace ' ' = true from by decide]
    simp only [if_true]
    by_cases hae : acc.isEmpty
    · rw [if_pos hae, if_pos (by simpa [List.isEmpty_iff, List.reverse_eq_nil_iff] using hae)]
    · rw [if_neg hae, if_neg (by simpa [List.isEmpty_iff, List.reverse_eq_nil_iff] using hae)]
  | cons c cs ih =>
    intro acc rest
    have hc : pyIsSpace c = false := hw c (List.mem_cons_self c cs)
    have hcs : ∀ d ∈ cs, pyIsSpace d = false :=
      fun d hd => hw d (List.mem_cons_of_mem c hd)
    show splitWsAux (c :: (cs ++ ' ' :: rest)) acc = _
    rw [splitWsAux_cons_eq, hc]
    simp only [Bool.false_eq_true, if_false]
    rw [ih hcs (c :: acc) rest]
    have he1 : (c :: acc).reverse ++ cs = acc.reverse ++ (c :: cs) := by
      simp [List.append_assoc]
    rw [he1]

theorem splitWsAux_last (w : List Char) (hw : ∀ c ∈ w, pyIsSpace c = false) :
    ∀ acc, splitWsAux w acc =
      if acc.reverse ++ w = [] then [] else [acc.reverse ++ w] := by
  induction w with
  | nil =>
    intro acc
    rw [splitWsAux_nil_eq]
    by_cases hae : acc.isEmpty
    · rw [if_pos hae, if_pos (by simpa [List.isEmpty_iff, List.reverse_eq_nil_iff] using hae)]
    · rw [if_neg hae,
        if_neg (by simpa [List.isEmpty_iff, List.reverse_eq_nil_iff] using hae)]
      simp
  | cons c cs ih =>
    intro acc
    have hc : pyIsSpace c = false := hw c (List.mem_cons_self c cs)
    have hcs : ∀ d ∈ cs, pyIsSpace d = false :=
      fun d hd => hw d (List.mem_cons_of_mem c hd)
    rw [splitWsAux_cons_eq, hc]
    simp only [Bool.false_eq_true, if_false]
    rw [ih hcs (c :: acc)]
    have he1 : (c :: acc).reverse ++ cs = acc.reverse ++ (c :: cs) := by
      simp [List.append_assoc]
    rw [he1]

theorem splitWs_join (ts : List (List Char))
    (h : ∀ t ∈ ts, t ≠ [] ∧ ∀ c ∈ t, pyIsSpace c = false) :
    splitWsChars (joinSpChars ts) = ts := by
  induction ts with
  | nil => rfl
  | cons t ts ih =>
    rcases h t (List.mem_cons_self t ts) with ⟨htne, htc⟩
    cases ts with
    | nil =>
      show splitWsChars t = [t]
      unfold splitWsChars
      rw [splitWsAux_last t htc []]
      simp [htne]
    | cons t' ts' =>
      show splitWsChars (t ++ ' ' :: joinSpChars (t' :: ts')) = t :: t' :: ts'
      unfold splitWsChars
      rw [splitWsAux_cut t htc [] (joinSpChars (t' :: ts'))]
      simp only [List.reverse_nil, List.nil_append]
      rw [if_neg htne]
      have := ih (fun u hu => h u (List.mem_cons_of_mem t hu))
      unfold splitWsChars at this
      rw [this]

theorem mem_joinSp (ts : List (List Char)) (c : Char) (hc : c ∈ joinSpChars ts) :
    c = ' ' ∨ ∃ t ∈ ts, c ∈ t := by
  induction ts with
  | nil => simp [joinSpChars] at hc
  | cons t ts ih =>
    cases ts with
    | nil =>
      right
      exact ⟨t, List.mem_cons_self t [], hc⟩
    | cons t' ts' =>
      rw [show joinSpChars (t :: t' :: ts') = t ++ ' ' :: joinSpChars (t' :: ts') from rfl]
        at hc
      rcases List.mem_append.mp hc with h1 | h1
      · right; exact ⟨t, List.mem_cons_self t _, h1⟩
      · rcases List.mem_cons.mp h1 with h2 | h2
        · left; exact h2
        · rcases ih h2 with h3 | ⟨u, hu, hcu⟩
          · left; exact h3
          · right; exact ⟨u, List.mem_cons_of_mem t hu, hcu⟩

theorem joinSp_ne_nil (t : List Char) (ts : List (List Char)) (h : t ≠ []) :
    joinSpChars (t :: ts) ≠ [] := by
  cases ts with
  | nil => exact h
  | cons t' ts' => simp [joinSpChars]

theorem joinSp_rev_head (ts : List (List Char))
    (h : ∀ t ∈ ts, t ≠ [] ∧ ∀ c ∈ t, pyIsSpace c = false) :
    (joinSpChars ts).reverse = [] ∨
      ∃ c cs, (joinSpChars ts).reverse = c :: cs ∧ pyIsSpace c = false := by
  induction ts with
  | nil => left; rfl
  | cons t ts ih =>
    cases ts with
    | nil =>
      right
      rcases h t (List.mem_cons_self t []) with ⟨htne, htc⟩
      rcases reverse_head t htne with ⟨c, cs, hrev, hmem⟩
      exact ⟨c, cs, hrev, htc c hmem⟩
    | cons t' ts' =>
      right
      rcases ih (fun u hu => h u (List.mem_cons_of_mem t hu)) with h1 | ⟨c, cs, hrev, hcw⟩
      · exfalso
        rcases h t' (List.mem_cons_of_mem t (List.mem_cons_self t' ts')) with ⟨ht'ne, _⟩
        exact joinSp_ne_nil t' ts' ht'ne (by simpa using h1)
      · refine ⟨c, cs ++ (' ' :: t.reverse), ?_, hcw⟩
        rw [show joinSpChars (t :: t' :: ts') = t ++ ' ' :: joinSpChars (t' :: ts') from rfl]
        rw [List.reverse_append, List.reverse_cons, hrev]
        simp

theorem strip_join (ts : List (List Char))
    (h : ∀ t ∈ ts, t ≠ [] ∧ ∀ c ∈ t, pyIsSpace c = false) :
    pyStripChars (joinSpChars ts) = joinSpChars ts := by
  unfold pyStripChars
  have h1 : (joinSpChars ts).dropWhile pyIsSpace = joinSpChars ts := by
    cases ts with
    | nil => rfl
    | cons t ts' =>
      rcases h t (List.mem_cons_self t ts') with ⟨htne, htc⟩
      rcases t with _ | ⟨c, cs⟩
      · exact absurd rfl htne
      · cases ts' with
        | nil =>
          rw [show joinSpChars [c :: cs] = c :: cs from rfl]
          rw [List.dropWhile_cons, htc c (List.mem_cons_self c cs)]
          simp
        | cons t' ts'' =>
          rw [show joinSpChars ((c :: cs) :: t' :: ts'') =
            (c :: cs) ++ ' ' :: joinSpChars (t' :: ts'') from rfl]
          rw [List.cons_append, List.dropWhile_cons, htc c (List.mem_cons_self c cs)]
          simp
  rw [h1]
  rcases joinSp_rev_head ts h with h2 | ⟨c, cs, hrev, hcw⟩
  · rw [h2]
    simpa using congrArg List.reverse h2
  · rw [hrev, List.dropWhile_cons, hcw]
    simp only [Bool.false_eq_true, if_false]
    rw [← hrev, List.reverse_reverse]


/-! The German-date regex finds no match in a dot-free string -/

theorem gAfterDay_none (ds r : List Char) (h : ∀ c ∈ r, c ≠ '.') :
    gAfterDay ds r = none := by
  unfold gAfterDay
  match r with
  | [] => rfl
  | c :: cs =>
    have hc : c ≠ '.' := h c (List.mem_cons_self c cs)
    cases hcc : c == '.' with
    | true => exact absurd (by simpa using hcc) hc
    | false =>
      split
      · rename_i heq
        exact absurd (by simpa using congrArg (List.head? ·) heq) hc
      · rfl

theorem gMatchFrom_none (l : List Char) (h : ∀ c ∈ l, c ≠ '.') :
    gMatchFrom l = none := by
  unfold gMatchFrom
  match l with
  | [] => rfl
  | c1 :: rest1 =>
    cases hd : c1.isDigit with
    | false => simp [hd]
    | true =>
      simp only [hd, if_true]
      have h1 : ∀ c ∈ rest1, c ≠ '.' :=
        fun c hc => h c (List.mem_cons_of_mem c1 hc)
      rw [gAfterDay_none [c1] rest1 h1]
      match rest1 with
      | [] => rfl
      | c2 :: rest2 =>
        have h2 : ∀ c ∈ rest2, c ≠ '.' :=
          fun c hc => h1 c (List.mem_cons_of_mem c2 hc)
        cases hd2 : c2.isDigit with
        | false => simp [hd2]
        | true =>
          simp only [hd2, if_true]
          rw [gAfterDay_none [c1, c2] rest2 h2]
          rfl

theorem gSearch_none (l : List Char) (h : ∀ c ∈ l, c ≠ '.') :
    gSearch l = none := by
  induction l with
  | nil => rfl
  | cons c cs ih =>
    unfold gSearch
    rw [gMatchFrom_none (c :: cs) h, ih (fun d hd => h d (List.mem_cons_of_mem c hd))]
    rfl

/-! `strptime` failure lemmas -/

theorem parseYearTok_none (t : List Char) (h : t.length ≠ 4) :
    parseYearTok t = none := by
  unfold parseYearTok
  have h4 : (t.length == 4) = false := by simpa using h
  rw [h4]
  simp

theorem strptimeDayMonYear_none_year (full : Bool) (t0 t1 t2 : List Char)
    (h : parseYearTok t2 = none) : strptimeDayMonYear full t0 t1 t2 = none := by
  unfold strptimeDayMonYear
  cases parseDayTok t0 with
  | none => rfl
  | some d =>
    cases (if full then fullMonth else abbMonth) (String.mk (pyLowerChars t1)) with
    | none => rfl
    | some m => simp [h, Option.bind]

theorem strptimeMonDayYear_none_year (full : Bool) (t0 t1 t2 : List Char)
    (h : parseYearTok t2 = none) : strptimeMonDayYear full t0 t1 t2 = none := by
  unfold strptimeMonDayYear
  cases (if full then fullMonth else abbMonth) (String.mk (pyLowerChars t0)) with
  | none => rfl
  | some m =>
    cases parseDayTok t1 with
    | none => rfl
    | some d => simp [h, Option.bind]

theorem strptimeDayMonYear_none_month (full : Bool) (t0 t1 t2 : List Char)
    (hab : abbMonth (String.mk (pyLowerChars t1)) = none)
    (hfu : fullMonth (String.mk (pyLowerChars t1)) = none) :
    strptimeDayMonYear full t0 t1 t2 = none := by
  unfold strptimeDayMonYear
  cases parseDayTok t0 with
  | none => rfl
  | some d => cases full <;> simp [hab, hfu, Option.bind]

/-! A month word outside the bilingual lexicon is outside the English
`strptime` lexicons as well: the English names fold to themselves and are all
keys of `MONTH_MAP`. -/

theorem abbMonth_in_map (s : String) (m : Nat) (h : abbMonth s = some m) :
    monthMap (String.mk (foldUmlauts s.data)) = some m := by
  unfold abbMonth at h
  split at h <;> simp_all <;> (subst h; decide)

theorem fullMonth_in_map (s : String) (m : Nat) (h : fullMonth s = some m) :
    monthMap (String.mk (foldUmlauts s.data)) = some m := by
  unfold fullMonth at h
  split at h <;> simp_all <;> (subst h; decide)


theorem abbMonth_none_of_map (t : List Char)
    (h : monthMap (String.mk (foldUmlauts t)) = none) :
    abbMonth (String.mk t) = none := by
  cases ha : abbMonth (String.mk t) with
  | none => rfl
  | some m =>
    have hin := abbMonth_in_map (String.mk t) m ha
    rw [h] at hin
    exact Option.noConfusion hin

theorem fullMonth_none_of_map (t : List Char)
    (h : monthMap (String.mk (foldUmlauts t)) = none) :
    fullMonth (String.mk t) = none := by
  cases ha : fullMonth (String.mk t) with
  | none => rfl
  | some m =>
    have hin := fullMonth_in_map (String.mk t) m ha
    rw [h] at hin
    exact Option.noConfusion hin

theorem joinSp_three (a b c : List Char) :
    joinSpChars [a, b, c] = a ++ ' ' :: (b ++ ' ' :: c) := rfl

theorem data_three (d m y : String) :
    (d ++ " " ++ m ++ " " ++ y).data = joinSpChars [d.data, m.data, y.data] := by
  rw [joinSp_three]
  simp only [String.data_append, List.append_assoc]
  rfl

/-- C4: the date normalizer rejects two-digit years instead of guessing a
century: for every day token of digits, month token of letters (umlauts
included) and two-digit year token, the `<day> <month> <year>` input fails
(the `%Y` directive demands exactly four digits and the German regex demands
`\d{4}`); the German-style and `<month> <day>, <year>`-style examples with a
two-digit year are likewise rejected. -/
theorem C4_two_digit_year (d m y : String)
    (hd1 : d.data ≠ []) (hd2 : ∀ c ∈ d.data, isDigitChar c = true)
    (hm1 : m.data ≠ []) (hm2 : ∀ c ∈ m.data, isUmlAlpha c = true)
    (hy1 : y.data.length = 2) (hy2 : ∀ c ∈ y.data, isDigitChar c = true) :
    normalizeDate (d ++ " " ++ m ++ " " ++ y) = none ∧
    normalizeDate "27. November 25" = none ∧
    normalizeDate "Nov 18, 25" = none := by
  refine ⟨?_, by decide, by decide⟩
  have hy1n : y.data ≠ [] := by
    intro he
    rw [he] at hy1
    simp at hy1
  have hclean : ∀ t ∈ [d.data, m.data, y.data],
      t ≠ [] ∧ ∀ x ∈ t, pyIsSpace x = false := by
    intro t ht
    simp only [List.mem_cons, List.not_mem_nil, or_false] at ht
    rcases ht with h | h | h <;> subst h
    · exact ⟨hd1, fun x hx => digit_not_ws x (hd2 x hx)⟩
    · exact ⟨hm1, fun x hx => uml_not_ws x (hm2 x hx)⟩
    · exact ⟨hy1n, fun x hx => digit_not_ws x (hy2 x hx)⟩
  have hmap : (joinSpChars [d.data, m.data, y.data]).map nbspToSpace =
      joinSpChars [d.data, m.data, y.data] := by
    apply map_self
    intro x hx
    rcases mem_joinSp _ x hx with h | ⟨t, ht, hxt⟩
    · subst h; rfl
    · simp only [List.mem_cons, List.not_mem_nil, or_false] at ht
      rcases ht with h | h | h <;> subst h
      · exact digit_nbsp_id x (hd2 x hxt)
      · exact uml_nbsp_id x (hm2 x hxt)
      · exact digit_nbsp_id x (hy2 x hxt)
  have hstrip : pyStripChars ((d ++ " " ++ m ++ " " ++ y).data.map nbspToSpace) =
      joinSpChars [d.data, m.data, y.data] := by
    rw [data_three, hmap]
    exact strip_join _ hclean
  have hsplit : splitWsChars
      (pyStripChars ((d ++ " " ++ m ++ " " ++ y).data.map nbspToSpace)) =
      [d.data, m.data, y.data] := by
    rw [hstrip]
    exact splitWs_join _ hclean
  have hyear : parseYearTok y.data = none := by
    apply parseYearTok_none
    rw [hy1]
    decide
  have hP : (parse_row_date (d ++ " " ++ m ++ " " ++ y)).1 = none := by
    unfold parse_row_date
    simp only [hsplit]
    simp only [strptimeDayMonYear_none_year false d.data m.data y.data hyear,
      strptimeDayMonYear_none_year true d.data m.data y.data hyear,
      strptimeMonDayYear_none_year false d.data (pyRstripSet [',', '.'] m.data) y.data hyear,
      strptimeMonDayYear_none_year true d.data (pyRstripSet [',', '.'] m.data) y.data hyear,
      Option.orElse]
    cases hio : pyIntOk (pyRstripSet ['.'] d.data) <;> simp [hio]
  have hG : parse_german_or_english_date (d ++ " " ++ m ++ " " ++ y) = none := by
    unfold parse_german_or_english_date
    have hnd : ∀ c ∈ (d ++ " " ++ m ++ " " ++ y).data.map nbspToSpace, c ≠ '.' := by
      rw [data_three, hmap]
      intro c hc
      rcases mem_joinSp _ c hc with h | ⟨t, ht, hct⟩
      · subst h; decide
      · simp only [List.mem_cons, List.not_mem_nil, or_false] at ht
        rcases ht with h | h | h <;> subst h
        · exact digit_ne_dot c (hd2 c hct)
        · exact uml_ne_dot c (hm2 c hct)
        · exact digit_ne_dot c (hy2 c hct)
    rw [gSearch_none _ hnd]
  unfold normalizeDate
  simp only [hP]
  exact hG


/-- C7: for every month word of letters whose lowercased, umlaut-folded form
is not a key of the bilingual month lexicon, the date normalizer fails on
`31 <word> 2025` (and on the concrete example `31 Foo 2025`), returning no
partial or default date. -/
theorem C7_unknown_month (w : String)
    (hw1 : w.data ≠ []) (hw2 : ∀ c ∈ w.data, isUmlAlpha c = true)
    (hmap : monthMap (String.mk (foldUmlauts (pyLowerChars w.data))) = none) :
    normalizeDate ("31" ++ " " ++ w ++ " " ++ "2025") = none ∧
    normalizeDate "31 Foo 2025" = none := by
  refine ⟨?_, by decide⟩
  have h31 : ∀ c ∈ ("31" : String).data, isDigitChar c = true := by decide
  have h2025 : ∀ c ∈ ("2025" : String).data, isDigitChar c = true := by decide
  have habb : abbMonth (String.mk (pyLowerChars w.data)) = none :=
    abbMonth_none_of_map (pyLowerChars w.data) hmap
  have hfull : fullMonth (String.mk (pyLowerChars w.data)) = none :=
    fullMonth_none_of_map (pyLowerChars w.data) hmap
  have hclean : ∀ t ∈ [("31" : String).data, w.data, ("2025" : String).data],
      t ≠ [] ∧ ∀ x ∈ t, pyIsSpace x = false := by
    intro t ht
    simp only [List.mem_cons, List.not_mem_nil, or_false] at ht
    rcases ht with h | h | h <;> subst h
    · exact ⟨by decide, fun x hx => digit_not_ws x (h31 x hx)⟩
    · exact ⟨hw1, fun x hx => uml_not_ws x (hw2 x hx)⟩
    · exact ⟨by decide, fun x hx => digit_not_ws x (h2025 x hx)⟩
  have hmapn : (joinSpChars [("31" : String).data, w.data, ("2025" : String).data]).map
      nbspToSpace = joinSpChars [("31" : String).data, w.data, ("2025" : String).data] := by
    apply map_self
    intro x hx
    rcases mem_joinSp _ x hx with h | ⟨t, ht, hxt⟩
    · subst h; rfl
    · simp only [List.mem_cons, List.not_mem_nil, or_false] at ht
      rcases ht with h | h | h <;> subst h
      · exact digit_nbsp_id x (h31 x hxt)
      · exact uml_nbsp_id x (hw2 x hxt)
      · exact digit_nbsp_id x (h2025 x hxt)
  have hstrip : pyStripChars ((("31" : String) ++ " " ++ w ++ " " ++ "2025").data.map
      nbspToSpace) = joinSpChars [("31" : String).data, w.data, ("2025" : String).data] := by
    rw [data_three, hmapn]
    exact strip_join _ hclean
  have hsplit : splitWsChars
      (pyStripChars ((("31" : String) ++ " " ++ w ++ " " ++ "2025").data.map nbspToSpace)) =
      [("31" : String).data, w.data, ("2025" : String).data] := by
    rw [hstrip]
    exact splitWs_join _ hclean
  have hcase1 : ∀ b, strptimeDayMonYear b ("31" : String).data w.data
      ("2025" : String).data = none := fun b =>
    strptimeDayMonYear_none_month b _ _ _ habb hfull
  have hcase2 : ∀ b, strptimeMonDayYear b ("31" : String).data
      (pyRstripSet [',', '.'] w.data) ("2025" : String).data = none := by
    intro b
    unfold strptimeMonDayYear
    cases b <;>
      simp [(by decide : abbMonth (String.mk (pyLowerChars ("31" : String).data)) = none),
        (by decide : fullMonth (String.mk (pyLowerChars ("31" : String).data)) = none),
        Option.bind]
  have hP : (parse_row_date ("31" ++ " " ++ w ++ " " ++ "2025")).1 = none := by
    unfold parse_row_date
    simp only [hsplit]
    simp only [hcase1, hcase2, Option.orElse]
    cases hio : pyIntOk (pyRstripSet ['.'] ("31" : String).data) <;> simp [hio]
  have hG : parse_german_or_english_date ("31" ++ " " ++ w ++ " " ++ "2025") = none := by
    unfold parse_german_or_english_date
    have hnd : ∀ c ∈ (("31" : String) ++ " " ++ w ++ " " ++ "2025").data.map nbspToSpace,
        c ≠ '.' := by
      rw [data_three, hmapn]
      intro c hc
      rcases mem_joinSp _ c hc with h | ⟨t, ht, hct⟩
      · subst h; decide
      · simp only [List.mem_cons, List.not_mem_nil, or_false] at ht
        rcases ht with h | h | h <;> subst h
        · exact digit_ne_dot c (h31 c hct)
        · exact uml_ne_dot c (hw2 c hct)
        · exact digit_ne_dot c (h2025 c hct)
    rw [gSearch_none _ hnd]
  unfold normalizeDate
  simp only [hP]
  exact hG

/-- Witness for C7 at the concrete month word `Foo`. -/
theorem C7_witness : normalizeDate ("31" ++ " " ++ "Foo" ++ " " ++ "2025") = none :=
  (C7_unknown_month "Foo" (by decide) (by decide) (by decide)).1


theorem mk_data (s : String) : String.mk s.data = s := rfl

theorem split_fallback (rest : String) (h : splitterFallback rest = true) :
    split_speaker_and_title rest =
      (String.mk (joinSpChars (splitWsChars rest.data)), "") := by
  unfold splitterFallback at h
  simp only [specTbaToken, Bool.and_eq_true, Bool.not_eq_true', decide_eq_true_eq] at h
  obtain ⟨⟨⟨h1, h2⟩, h3⟩, h4⟩ := h
  unfold split_speaker_and_title
  simp only [h1, h2, h3, Bool.false_eq_true, if_false]
  rw [if_neg (by omega)]

theorem parse_row_date_shape (line : String) :
    (parse_row_date line).1 = none ∨
    ∃ rs, (parse_row_date line).2 = String.mk (joinSpChars rs) ∧
      ∀ t ∈ rs, t ≠ [] ∧ ∀ c ∈ t, pyIsSpace c = false := by
  have hcl := splitWs_clean (pyStripChars (line.data.map nbspToSpace))
  unfold parse_row_date
  rcases hts : splitWsChars (pyStripChars (line.data.map nbspToSpace)) with
    _ | ⟨t0, _ | ⟨t1, _ | ⟨t2, rest⟩⟩⟩ <;> simp only [hts]
  · exact Or.inl trivial
  · exact Or.inl trivial
  · exact Or.inl trivial
  · rw [hts] at hcl
    have hrest : ∀ t ∈ rest, t ≠ [] ∧ ∀ c ∈ t, pyIsSpace c = false := by
      intro t ht
      exact hcl t (List.mem_cons_of_mem t0 (List.mem_cons_of_mem t1
        (List.mem_cons_of_mem t2 ht)))
    split
    · right; exact ⟨rest, rfl, hrest⟩
    · split
      · right; exact ⟨rest, rfl, hrest⟩
      · left; rfl

/-- C10: every Event the tabular row extractor emits has a non-empty title;
when the splitter returns an empty title the whole post-date remainder is
substituted; and when the input falls through to the splitter rule-4
fallback, the emitted speaker and title are the identical string. -/
theorem C10_title_invariant (cfg : SeriesConfig) (line : String) (ev : Event)
    (h : processRow cfg line = some ev) :
    ev.title ≠ "" ∧
    ((split_speaker_and_title (parse_row_date line).2).2 = "" →
      ev.title = pyStrip (parse_row_date line).2) ∧
    (splitterFallback (parse_row_date line).2 = true → ev.speaker = ev.title) := by
  unfold processRow at h
  rcases hpd : parse_row_date line with ⟨dq, rest⟩
  rw [hpd] at h
  cases dq with
  | none => exact absurd h (by simp)
  | some d =>
    simp only at h
    by_cases hemp : pyStrip rest = ""
    · rw [if_pos hemp] at h
      exact absurd h (by simp)
    · rw [if_neg hemp] at h
      have hev := Option.some.inj h
      subst hev
      refine ⟨?_, ?_, ?_⟩
      · show (if (split_speaker_and_title rest).2 = "" then pyStrip rest
          else (split_speaker_and_title rest).2) ≠ ""
        by_cases hsp : (split_speaker_and_title rest).2 = ""
        · rw [if_pos hsp]; exact hemp
        · rw [if_neg hsp]; exact hsp
      · intro hsp
        show (if (split_speaker_and_title rest).2 = "" then pyStrip rest
          else (split_speaker_and_title rest).2) = pyStrip rest
        rw [if_pos hsp]
      · intro hfb
        have hfall := split_fallback rest hfb
        show (split_speaker_and_title rest).1 =
          (if (split_speaker_and_title rest).2 = "" then pyStrip rest
            else (split_speaker_and_title rest).2)
        rw [hfall]
        simp only []
        rw [if_pos trivial]
        rcases parse_row_date_shape line with hnone | ⟨rs, hrest, hcleanr⟩
        · rw [hpd] at hnone
          exact absurd hnone (by simp)
        · rw [hpd] at hrest
          simp only at hrest
          rw [hrest]
          rw [show (String.mk (joinSpChars rs)).data = joinSpChars rs from rfl]
          rw [splitWs_join rs hcleanr]
          unfold pyStrip
          rw [show (String.mk (joinSpChars rs)).data = joinSpChars rs from rfl]
          rw [strip_join rs hcleanr]

/-- Witness for C10 at the concrete fallback-shaped row `04 Nov 2025 Alice
Bob`. -/
theorem C10_witness :
    c10ev.title ≠ "" ∧ c10ev.speaker = c10ev.title := by
  have h := C10_title_invariant c10cfg c10row c10ev (by decide)
  exact ⟨h.1, h.2.2 (by decide)⟩


/-- Witness for C4 at the concrete input `04 Nov 25`. -/
theorem C4_witness : normalizeDate ("04" ++ " " ++ "Nov" ++ " " ++ "25") = none :=
  (C4_two_digit_year "04" "Nov" "25" (by decide) (by decide) (by decide) (by decide)
    (by decide) (by decide)).1

end Scraper
